import Mathlib

/-!
# Verification of the X5GON search-api query-compilation and result-assembly engine

Shallow embedding of the query compiler, pagination planner, license
normalizer, concept extractor, result formatter and image-branch metadata of
the `search-api` repository.  Each definition is translated from the
TypeScript/JavaScript source file named in its doc comment.  JavaScript
numbers that hold request integers are modelled as `Int` (`Option Int` when
the parameter may be absent or `NaN`, both of which the code treats through
falsiness); JavaScript exceptions are modelled with `Except`.
-/

namespace SearchAPI

/-! ## Pagination planner (src/routes/v1/oer_materials.ts lines 75-77, 195-208;
src/routes/v1/recommend.js lines 70-72, 190-200) -/

def DEFAULT_LIMIT : Int := 20

def MAX_LIMIT : Int := 100

def DEFAULT_PAGE : Int := 1

/-- Effective limit of the `oer_materials` search route
(oer_materials.ts lines 195-201).  The JS expression is
`!queryLimit ? DEFAULT_LIMIT : queryLimit <= 0 ? DEFAULT_LIMIT :
queryLimit >= MAX_LIMIT ? DEFAULT_LIMIT : queryLimit`;
`!queryLimit` is true exactly when the parameter is absent, `NaN`
(both modelled as `none`) or `0`. -/
def searchLimit (queryLimit : Option Int) : Int :=
  match queryLimit with
  | none => DEFAULT_LIMIT
  | some l =>
    if l = 0 then DEFAULT_LIMIT
    else if l ≤ 0 then DEFAULT_LIMIT
    else if l ≥ MAX_LIMIT then DEFAULT_LIMIT
    else l

/-- Effective limit of the legacy v1 `recommend/materials` route
(recommend.js lines 190-197).  Unlike the search route, the branch for
`limit >= MAX_LIMIT` assigns `MAX_LIMIT`, not the default. -/
def recommendLimit (queryLimit : Option Int) : Int :=
  match queryLimit with
  | none => DEFAULT_LIMIT
  | some l =>
    if l = 0 then DEFAULT_LIMIT
    else if l ≤ 0 then DEFAULT_LIMIT
    else if l ≥ MAX_LIMIT then MAX_LIMIT
    else l

/-- Effective page (oer_materials.ts lines 203-205):
`!queryPage ? DEFAULT_PAGE : queryPage`.  Only a falsy page (absent, `NaN`,
or `0`) is replaced by the default; negative values pass through. -/
def searchPage (queryPage : Option Int) : Int :=
  match queryPage with
  | none => DEFAULT_PAGE
  | some p => if p = 0 then DEFAULT_PAGE else p

/-- Engine-facing window (oer_materials.ts lines 207-208):
`size = limit`, `from = (page - 1) * size`. -/
def searchFrom (queryLimit queryPage : Option Int) : Int :=
  (searchPage queryPage - 1) * searchLimit queryLimit

/-! ## Query compiler: clause structures (oer_materials.ts lines 217-298, 350-430) -/

/-- One element pushed to the nested `contents` must list
(oer_materials.ts lines 218-237). -/
inductive ContentClause where
  | termsLanguage (langs : List String)
  | termExtension (ext : String)
deriving DecidableEq, Repr

/-- One element pushed to the `filters` list (oer_materials.ts lines 253-295). -/
inductive FilterClause where
  | regexpMaterialUrl (pattern : String)
  | termType (group : String)
  | termsLicenseShortName (names : List String)
  | termsProviderId (ids : List Int)
  | termsLanguage (langs : List String)
  | existsField (field : String)
deriving DecidableEq, Repr

/-- Transcript formats recognized by the content branch
(oer_materials.ts line 228). -/
def recognizedExtensions : List String := ["plain", "webvtt", "dfxp"]

/-- `getContent` (oer_materials.ts lines 227-237): true exactly when a content
extension is requested and recognized; otherwise it stays `undefined` (falsy). -/
def getContent (content_extension : Option String) : Bool :=
  match content_extension with
  | some ext => recognizedExtensions.contains ext
  | none => false

/-- The `nestedContentsMust` list (oer_materials.ts lines 218-237): a
content-language terms clause is pushed first when content languages are
present, then the extension term — the requested extension when recognized,
otherwise the literal `"plain"`. -/
def nestedContentsMust (content_languages : Option (List String))
    (content_extension : Option String) : List ContentClause :=
  (match content_languages with
   | some langs => [ContentClause.termsLanguage langs]
   | none => []) ++
  (match content_extension with
   | some ext =>
     if recognizedExtensions.contains ext then [ContentClause.termExtension ext]
     else [ContentClause.termExtension "plain"]
   | none => [ContentClause.termExtension "plain"])

/-- Recognized group tokens for the `types` parameter (oer_materials.ts line 246). -/
def recognizedTypeGroups : List String := ["all", "text", "video", "audio", "image"]

/-- `typegroup` (oer_materials.ts lines 244-247): a recognized token other than
`"all"`; `"all"` and everything else leave it unset. -/
def typegroup (types : Option String) : Option String :=
  match types with
  | none => none
  | some t =>
    if recognizedTypeGroups.contains t then (if t = "all" then none else some t)
    else none

/-- JavaScript `String.prototype.split` on a single-character separator:
`"a,b".split(",")` is `["a","b"]`, `"".split(",")` is `[""]`. -/
def jsSplitChar (sep : Char) : List Char → List (List Char)
  | [] => [[]]
  | c :: rest =>
    if c = sep then [] :: jsSplitChar sep rest
    else
      match jsSplitChar sep rest with
      | h :: t => (c :: h) :: t
      | [] => [[c]]

/-- JavaScript `String.prototype.trim`: strip leading and trailing whitespace. -/
def jsTrim (cs : List Char) : List Char :=
  ((cs.dropWhile Char.isWhitespace).reverse.dropWhile Char.isWhitespace).reverse

/-- The regular-expression pattern built for a comma-separated extension list
(oer_materials.ts line 249).  The source template literal is `.*\.${t.trim()}`:
JavaScript string escaping consumes the backslash (`"\."` is the same string
as `"."`), so the runtime string joined with `|` is `.*.ext1|.*.ext2|...` —
each alternative has an unescaped regex dot before the extension and there is
no grouping around the alternatives. -/
def filetypesPattern (t : String) : String :=
  String.intercalate "|"
    ((jsSplitChar ',' t.data).map (fun x => ".*." ++ String.mk (jsTrim x)))

/-- `filetypes` (oer_materials.ts lines 244-250): set only when `types` is
present and not a recognized group token (`split(",").length > 0` is always
true for a JS string split). -/
def filetypes (types : Option String) : Option String :=
  match types with
  | none => none
  | some t =>
    if recognizedTypeGroups.contains t then none
    else some (filetypesPattern t)

/-- The pattern the claim describes: `.*\.(ext1|ext2|...)` with a
backslash-escaped dot and parenthesized alternatives. -/
def filetypesPatternClaimed (t : String) : String :=
  ".*\\.(" ++
    String.intercalate "|" ((jsSplitChar ',' t.data).map (fun x => String.mk (jsTrim x))) ++
  ")"

/-- The `filters` list (oer_materials.ts lines 253-295), in push order:
regexp on the material URL, term on the type group, license short-name terms
(only when licenses are present, non-empty and do not include `"cc"`),
provider-id terms, language terms, an exists filter on `license.url` (when the
licenses include `"cc"`), and an exists filter on `creation_date` (when
sorting by creation date). -/
def optList (o : Option α) (f : α → β) : List β :=
  match o with
  | some a => [f a]
  | none => []

def filters (types : Option String) (licenses : Option (List String))
    (provider_ids : Option (List Int)) (languages : Option (List String))
    (sort_by : Option String) : List FilterClause :=
  optList (filetypes types) FilterClause.regexpMaterialUrl ++
  optList (typegroup types) FilterClause.termType ++
  (match licenses with
   | some ls => if ls ≠ [] ∧ ¬ ls.contains "cc" then [FilterClause.termsLicenseShortName ls] else []
   | none => []) ++
  optList provider_ids FilterClause.termsProviderId ++
  optList languages FilterClause.termsLanguage ++
  (match licenses with
   | some ls => if ls ≠ [] ∧ ls.contains "cc" then [FilterClause.existsField "license.url"] else []
   | none => []) ++
  (if sort_by = some "creation_date" then [FilterClause.existsField "creation_date"] else [])

/-- The `_source.excludes` list dropping raw content payload fields
(oer_materials.ts lines 355-360). -/
def contentPayloadExcludes : List String :=
  ["contents.type", "contents.extension", "contents.language", "contents.value"]

/-- The compiled Elasticsearch query, restricted to the fields the claims are
about (oer_materials.ts lines 350-430).  `sourceExcludes` models the
conditional spread `...!getContent && { excludes: [...] }`; `must` models
`...getContent && { must: [{ nested: { path: "contents", ... } }] }`;
`filter` models `...filterFlag && { filter: filters }`. -/
structure EsQuery where
  from_ : Int
  size : Int
  sourceExcludes : Option (List String)
  must : Option (List ContentClause)
  filter : Option (List FilterClause)
  minScore : Nat
deriving DecidableEq, Repr

/-- Normalized search parameters reaching the route handler
(oer_materials.ts lines 167-180). -/
structure SearchParams where
  text : String
  types : Option String
  licenses : Option (List String)
  languages : Option (List String)
  content_languages : Option (List String)
  content_extension : Option String
  provider_ids : Option (List Int)
  wikipedia : Bool
  wikipedia_limit : Option Int
  sort_by : Option String
  limit : Option Int
  page : Option Int
deriving Repr

/-- Builds the Elasticsearch query body of the search route
(oer_materials.ts lines 350-430). -/
def esQuery (p : SearchParams) : EsQuery :=
  let gc := getContent p.content_extension
  let fs := filters p.types p.licenses p.provider_ids p.languages p.sort_by
  { from_ := searchFrom p.limit p.page
    size := searchLimit p.limit
    sourceExcludes := if gc then none else some contentPayloadExcludes
    must := if gc then some (nestedContentsMust p.content_languages p.content_extension) else none
    filter := if fs.isEmpty then none else some fs
    minScore := 5 }

/-! ## Image branch (oer_materials.ts lines 90-106, 330-342) -/

/-- Which backend a request is routed to (oer_materials.ts lines 330-343):
when the resolved type group is `"image"` the Creative Commons image provider
is queried and no Elasticsearch query body is built; otherwise the primary
index query is assembled. -/
inductive QueryPlan where
  | image (text : String) (limit page : Int) (licenses : Option (List String))
  | primary (q : EsQuery)
deriving Repr

/-- Route dispatch of the search handler (oer_materials.ts lines 330-343). -/
def compileSearch (p : SearchParams) : QueryPlan :=
  if typegroup p.types = some "image" then
    QueryPlan.image p.text (searchLimit p.limit) (searchPage p.page) p.licenses
  else
    QueryPlan.primary (esQuery p)

/-- License list forwarded to the image provider (oer_materials.ts line 92):
the local sentinel `"cc"` is filtered out before the upstream request. -/
def imageProviderLicenses (licenses : Option (List String)) : Option (List String) :=
  match licenses with
  | some ls => some (ls.filter (fun l => l ≠ "cc"))
  | none => none

/-- Pagination metadata of the image branch (oer_materials.ts lines 335-336):
`totalPages = page_count > 100 ? 100 : page_count` and
`totalHits = totalPages * 20`. -/
def imageMetadata (page_count : Nat) : Nat × Nat :=
  let totalPages := if page_count > 100 then 100 else page_count
  (totalPages, totalPages * 20)

/-! ## Concept extractor (src/unnamed TS recommend route, `wikiConcepts`,
the `Object.entries` / counted-from-zero variant; the legacy recommend.js
copy differs and is discussed with claim C1) -/

/-- One step of the frequency `reduce`: `if (!prev[curr]) prev[curr] = 0;
prev[curr] += 1` on a plain JS object, modelled as an association list in key
insertion order (concept names are treated as plain string keys). -/
def bumpCount : List (String × Nat) → String → List (String × Nat)
  | [], n => [(n, 1)]
  | (k, v) :: rest, n =>
    if k = n then (k, v + 1) :: rest
    else (k, v) :: bumpCount rest n

/-- `Object.entries` of the frequency object built by the reduce, in first-seen
key order. -/
def conceptCounts (names : List String) : List (String × Nat) :=
  names.foldl bumpCount []

/-- One step of a stable insertion into a list sorted by descending count:
the new element passes over strictly larger counts only, so among equal counts
the earlier element of the input stays first — the behavior of the stable JS
`Array.prototype.sort` with comparator `(a, b) => b[1] - a[1]`. -/
def insertDesc (x : String × Nat) : List (String × Nat) → List (String × Nat)
  | [] => [x]
  | y :: ys => if y.2 > x.2 then y :: insertDesc x ys else x :: y :: ys

/-- Stable sort by descending count. -/
def sortDescByCount (l : List (String × Nat)) : List (String × Nat) :=
  l.foldr insertDesc []

/-- JavaScript `Array.prototype.slice(s, e)`: the elements at indices
`s, ..., e - 1`. -/
def jsSlice (s e : Nat) (l : List α) : List α :=
  (l.take e).drop s

/-- The extractor itself: per reference document take the first 30 concept
names (`wikipedia.slice(0, 30)`), concatenate, count occurrences per distinct
name, sort the entries by descending count, and `slice(startSlice, 20)` where
`startSlice` is 2 when more than 2 distinct names exist and 0 otherwise. -/
def wikiConcepts (docs : List (List String)) : List (String × Nat) :=
  let names := (docs.map (fun d => d.take 30)).flatten
  let entries := conceptCounts names
  let startSlice := if entries.length > 2 then 2 else 0
  jsSlice startSlice 20 (sortDescByCount entries)

/-- The distinct names of a list in first-seen order, never having seen the
names in `seen`.  Written from the claim's words ("occurrence frequency per
distinct concept name", ties broken by first-seen order). -/
def firstSeenFrom (seen : List String) : List String → List String
  | [] => []
  | n :: rest =>
    if n ∈ seen then firstSeenFrom seen rest
    else n :: firstSeenFrom (n :: seen) rest

/-- The extractor as the claim states it: frequency per distinct name, sort
descending, drop the 2 highest-frequency entries whenever at least 3 distinct
names exist, then keep at most the next 20. -/
def conceptExtractorClaimed (docs : List (List String)) : List (String × Nat) :=
  let names := (docs.map (fun d => d.take 30)).flatten
  let entries := (firstSeenFrom [] names).map (fun n => (n, names.count n))
  let sorted := sortDescByCount entries
  if 3 ≤ entries.length then (sorted.drop 2).take 20 else sorted.take 20

/-- The extractor as amended: after dropping the 2 highest-frequency entries
the code keeps at most the next 18 (the survivors of the first 20 positions of
the sorted list), not 20. -/
def conceptExtractorAmended (docs : List (List String)) : List (String × Nat) :=
  let names := (docs.map (fun d => d.take 30)).flatten
  let entries := (firstSeenFrom [] names).map (fun n => (n, names.count n))
  let sorted := sortDescByCount entries
  if 3 ≤ entries.length then (sorted.drop 2).take 18 else sorted.take 20

/-! ## License normalizer (oer_materials.ts lines 79-80, 508-526) -/

def NO_LICENSE_DISCLAIMER : String :=
  "X5GON recommends the use of the Creative Commons open licenses. During a transitory phase, other licenses, open in spirit, are sometimes used by our partner sites."

def DEFAULT_DISCLAIMER : String :=
  "The usage of the corresponding material is in all cases under the sole responsibility of the user."

/-- `\w` or `-`, the character class `[\w\-]` of the license regex
(`\w` is ASCII letters, digits and underscore). -/
def isWordOrHyphen (c : Char) : Bool :=
  c.isAlphanum || c = '_' || c = '-'

/-- Attempts the regex `\/licen[sc]es\/([\w\-]+)\//` at the start of the
character list and returns the capture.  The greedy `[\w\-]+` takes the
maximal run; backtracking a shorter run cannot help because the character
after a shorter run is again in `[\w\-]` and hence not the required `/`. -/
def matchLicenseAt (cs : List Char) : Option (List Char) :=
  match cs with
  | '/' :: 'l' :: 'i' :: 'c' :: 'e' :: 'n' :: x :: 'e' :: 's' :: '/' :: rest =>
    if (x = 's' ∨ x = 'c') ∧ rest.takeWhile isWordOrHyphen ≠ [] ∧
        (rest.drop (rest.takeWhile isWordOrHyphen).length).take 1 = ['/'] then
      some (rest.takeWhile isWordOrHyphen)
    else none
  | _ => none

/-- `url.match(regex)`: the regex engine tries each start position from the
left and returns the capture of the first position with a full match. -/
def scanLicense : List Char → Option (List Char)
  | [] => none
  | c :: rest =>
    match matchLicenseAt (c :: rest) with
    | some run => some run
    | none => scanLicense rest

/-- The captured short license code of a URL, `url.match(regex)[1]`
(oer_materials.ts lines 515-516); `none` models a `null` match, on which the
`[1]` access throws. -/
def extractShortName (url : String) : Option String :=
  (scanLicense url.data).map (fun run => String.mk run)

/-- `shortName.split("-")` as a list of strings. -/
def typedNameOf (shortName : String) : List String :=
  (jsSplitChar '-' shortName.data).map (fun l => String.mk l)

/-- The normalized license object (oer_materials.ts lines 521-526). -/
structure License where
  short_name : String
  typed_name : Option (List String)
  disclaimer : String
  url : Option String
deriving DecidableEq, Repr

/-- License normalization of the record-creation route
(oer_materials.ts lines 508-526).  A falsy URL (absent, modelled `none`, or
the empty string) takes the no-license branch; a present URL on which the
regex finds no match makes `url.match(regex)[1]` throw a `TypeError`,
modelled as `Except.error`. -/
def normalizeLicense (url : Option String) : Except Unit License :=
  match url with
  | none =>
    Except.ok { short_name := NO_LICENSE_DISCLAIMER, typed_name := none,
                disclaimer := DEFAULT_DISCLAIMER, url := none }
  | some u =>
    if u = "" then
      Except.ok { short_name := NO_LICENSE_DISCLAIMER, typed_name := none,
                  disclaimer := DEFAULT_DISCLAIMER, url := some "" }
    else
      match extractShortName u with
      | none => Except.error ()
      | some code =>
        Except.ok { short_name := code, typed_name := some (typedNameOf code),
                    disclaimer := DEFAULT_DISCLAIMER, url := some u }

/-- The shape of a URL fragment containing the path segment
`/licen[sc]es/<run>/` followed by `tail`; used to state what a successful
match means. -/
def licenseSegment (x : Char) (run : List Char) (tail : List Char) : List Char :=
  '/' :: 'l' :: 'i' :: 'c' :: 'e' :: 'n' :: x :: 'e' :: 's' :: '/' :: (run ++ '/' :: tail)

/-! ## Result formatter (oer_materials.ts lines 40-70) -/

/-- One entry of a material's `contents` array.  The index document also
carries `type`, `language` and `value` payload fields; the formatter treats
entries opaquely except for these two fields, so only they are modelled. -/
structure Content where
  content_id : Int
  extension : String
deriving DecidableEq, Repr

/-- One entry of a material's `wikipedia` array; the formatter treats entries
opaquely, so only the name field is modelled. -/
structure Wiki where
  sec_name : String
deriving DecidableEq, Repr

/-- The stored fields of a raw Elasticsearch hit (src Interfaces.ts,
`IElasticsearchHit`): `contents` is optional, `wikipedia` is not. -/
structure HitSource where
  material_id : Int
  title : String
  description : String
  creation_date : String
  retrieved_date : String
  mtype : String
  mimetype : String
  material_url : String
  website_url : String
  language : String
  license : License
  contents : Option (List Content)
  provider_id : Int
  provider_name : String
  provider_url : String
  wikipedia : List Wiki
deriving Repr

/-- A raw hit: relevance score plus stored fields.  The score is a JS number
copied verbatim into the output; its numeric type is abstracted as `Int`. -/
structure Hit where
  score : Int
  source : HitSource
deriving Repr

/-- The public material representation built by `materialFormat`
(oer_materials.ts lines 40-70).  The `language_full` field (an external
ISO-639-1 library lookup on `language`) is orthogonal to every claim and is
not modelled. -/
structure MaterialRecord where
  weight : Int
  material_id : Int
  title : String
  description : String
  creation_date : String
  retrieved_date : String
  mtype : String
  mimetype : String
  url : String
  website : String
  language : String
  license : License
  provider_id : Int
  provider_name : String
  provider_domain : String
  content_ids : List Int
  contents : Option (List Content)
  wikipedia : Option (List Wiki)
deriving Repr

/-- JavaScript `String.prototype.toLowerCase`, character by character. -/
def jsToLower (s : String) : String :=
  String.mk (s.data.map Char.toLower)

/-- The `wikipedia` field value (oer_materials.ts lines 64-68):
`wikipedia_limit && wikipedia_limit > 0 ? slice(0, wikipedia_limit) : full`.
A falsy (absent or zero) or non-positive limit yields the full list. -/
def wikipediaField (wikipedia_limit : Option Int) (wiki : List Wiki) : List Wiki :=
  match wikipedia_limit with
  | none => wiki
  | some l => if 0 < l then wiki.take l.toNat else wiki

/-- `materialFormat` (oer_materials.ts lines 40-70).  `content_ids` guards the
`contents` array (`hit._source.contents ? ... : []`), but the conditional
spread `...getContent && { contents: hit._source.contents.filter(...) }`
calls `filter` unguarded: when `getContent` is true and the hit has no
`contents` array the call throws a `TypeError`, modelled as `Except.error`. -/
def materialFormat (hit : Hit) (wikipedia : Bool) (wikipedia_limit : Option Int)
    (gc : Bool) (content_extension : Option String) : Except Unit MaterialRecord :=
  if gc ∧ hit.source.contents = none then Except.error ()
  else Except.ok
    { weight := hit.score
      material_id := hit.source.material_id
      title := hit.source.title
      description := hit.source.description
      creation_date := hit.source.creation_date
      retrieved_date := hit.source.retrieved_date
      mtype := hit.source.mtype
      mimetype := hit.source.mimetype
      url := hit.source.material_url
      website := hit.source.website_url
      language := hit.source.language
      license := hit.source.license
      provider_id := hit.source.provider_id
      provider_name := jsToLower hit.source.provider_name
      provider_domain := hit.source.provider_url
      content_ids :=
        match hit.source.contents with
        | some cs => cs.map (fun c => c.content_id)
        | none => []
      contents :=
        if gc then
          some (((hit.source.contents).getD []).filter
            (fun c => content_extension = some c.extension))
        else none
      wikipedia :=
        if wikipedia then some (wikipediaField wikipedia_limit hit.source.wikipedia)
        else none }

/-! ## Theorems -/

/-- C2 (counterexample): the claim says every requested limit of at least 100
yields the default limit 20, but the v1 recommend route (recommend.js lines
195-196, cited by the claim) clamps such a limit to `MAX_LIMIT = 100`:
at the requested limit 150 the effective limit is 100, not 20. -/
theorem C2_limit_counterexample :
    recommendLimit (some 150) = 100 ∧ recommendLimit (some 150) ≠ DEFAULT_LIMIT := by
  decide

/-- C2 (amended): on the `oer_materials` search route an absent, zero,
negative or ≥ 100 requested limit yields the default 20 and a limit in
`[1, 99]` passes through (and the query size equals that effective limit);
on the legacy v1 recommend route a limit ≥ 100 instead yields the maximum
100, with the remaining cases as on the search route. -/
theorem C2_limit_clamping (q : Int) (p : SearchParams) :
    searchLimit none = DEFAULT_LIMIT ∧
    recommendLimit none = DEFAULT_LIMIT ∧
    searchLimit (some q) = (if 1 ≤ q ∧ q ≤ 99 then q else DEFAULT_LIMIT) ∧
    recommendLimit (some q) =
      (if 1 ≤ q ∧ q ≤ 99 then q
       else if 100 ≤ q then MAX_LIMIT else DEFAULT_LIMIT) ∧
    (esQuery p).size = searchLimit p.limit := by
  refine ⟨rfl, rfl, ?_, ?_, rfl⟩ <;>
  · simp only [searchLimit, recommendLimit, DEFAULT_LIMIT, MAX_LIMIT]
    split_ifs <;> omega

/-- C7 (counterexample): the claim says every requested page ≤ 0 normalizes
to the default page 1, but only a falsy page (absent or zero) is replaced
(oer_materials.ts lines 203-205): the requested page -1 stays -1. -/
theorem C7_page_counterexample :
    searchPage (some (-1)) = -1 ∧ searchPage (some (-1)) ≠ DEFAULT_PAGE := by
  decide

/-- C7 (amended): the engine-facing offset satisfies
`from = (page - 1) * size` for every effective page (in particular every
page ≥ 1), an absent or zero requested page normalizes to the default 1, but
a negative requested page is not normalized and passes through. -/
theorem C7_pagination_window :
    (∀ ql qp : Option Int, 1 ≤ searchPage qp →
      searchFrom ql qp = (searchPage qp - 1) * searchLimit ql) ∧
    searchPage none = DEFAULT_PAGE ∧
    searchPage (some 0) = DEFAULT_PAGE ∧
    (∀ p : Int, p < 0 → searchPage (some p) = p) := by
  refine ⟨fun ql qp _ => rfl, rfl, rfl, fun p hp => ?_⟩
  simp only [searchPage]
  rw [if_neg (by omega)]

/-- Witness for C7 at the concrete inputs limit 10, page 3 and page -3. -/
theorem C7_pagination_window_witness :
    searchFrom (some 10) (some 3) = (searchPage (some 3) - 1) * searchLimit (some 10) ∧
    searchPage (some (-3)) = -3 :=
  ⟨C7_pagination_window.1 (some 10) (some 3) (by decide),
   C7_pagination_window.2.2.2 (-3) (by decide)⟩

/-- C4: evaluation of the type clause.  `"all"` produces no restriction and a
recognized group token produces an exact-match term filter, as the claim says;
but for a comma-separated extension list the single compiled regexp pattern is
`.*.pdf|.*.mp4` — the backslash of the source template literal `.*\.` is
consumed by JavaScript string escaping, so the dot before each extension is an
unescaped any-character regex dot and the pattern differs from the claimed
`.*\.(pdf|mp4)`. -/
theorem C4_type_clause_evaluation :
    typegroup (some "all") = none ∧
    filters (some "all") none none none none = [] ∧
    filters (some "video") none none none none = [FilterClause.termType "video"] ∧
    filters (some "pdf,mp4") none none none none =
      [FilterClause.regexpMaterialUrl ".*.pdf|.*.mp4"] ∧
    filetypesPattern "pdf,mp4" ≠ filetypesPatternClaimed "pdf,mp4" := by
  decide

/-- The search parameters of an image-type request used as the C8 witness. -/
def imageParams : SearchParams :=
  { text := "cats", types := some "image", licenses := none, languages := none
    content_languages := none, content_extension := none, provider_ids := none
    wikipedia := false, wikipedia_limit := none, sort_by := none
    limit := none, page := none }

/-- C8: when the resolved type group is `"image"` the request is routed to
the secondary image provider and no Elasticsearch query body is built, and
the response metadata reports `total_pages = min(page_count, 100)` and
`total_hits = min(page_count, 100) * 20`. -/
theorem C8_image_branch (p : SearchParams) (page_count : Nat)
    (h : typegroup p.types = some "image") :
    compileSearch p =
      QueryPlan.image p.text (searchLimit p.limit) (searchPage p.page) p.licenses ∧
    (imageMetadata page_count).1 = min page_count 100 ∧
    (imageMetadata page_count).2 = min page_count 100 * 20 := by
  refine ⟨?_, ?_, ?_⟩
  · unfold compileSearch
    rw [if_pos h]
  · simp only [imageMetadata]
    split_ifs <;> omega
  · simp only [imageMetadata]
    split_ifs <;> omega

/-- Witness for C8 at a concrete image request and upstream page count 150. -/
theorem C8_image_branch_witness :
    compileSearch imageParams =
      QueryPlan.image imageParams.text (searchLimit imageParams.limit)
        (searchPage imageParams.page) imageParams.licenses ∧
    (imageMetadata 150).1 = min 150 100 ∧
    (imageMetadata 150).2 = min 150 100 * 20 :=
  C8_image_branch imageParams 150 (by decide)

theorem mem_optList {α β : Type} {o : Option α} {f : α → β} {c : β} :
    c ∈ optList o f ↔ ∃ a, o = some a ∧ c = f a := by
  cases o <;> simp [optList]

theorem mem_iteList {c : Prop} [Decidable c] {β : Type} {l : List β} {x : β} :
    x ∈ (if c then l else []) ↔ c ∧ x ∈ l := by
  split_ifs with h <;> simp [h]

/-- The nested contents must clause as the claim states it: always attached to
the compiled query, carrying the default `"plain"` requirement when no
recognized extension is requested. -/
def esQueryMustClaimed (p : SearchParams) : Option (List ContentClause) :=
  some (nestedContentsMust p.content_languages p.content_extension)

/-- A plain search request without any content extension, used against C3. -/
def plainSearchParams : SearchParams :=
  { text := "learning", types := none, licenses := none, languages := none
    content_languages := none, content_extension := none, provider_ids := none
    wikipedia := false, wikipedia_limit := none, sort_by := none
    limit := none, page := none }

/-- C3 (counterexample): for a request without a recognized content extension
the claim says the compiled query still requires the `"plain"` extension, but
the `must` clause is attached only under the conditional spread
`...getContent && { must: ... }` (oer_materials.ts lines 365-376), so the
compiled query of a plain request carries no contents requirement at all. -/
theorem C3_content_counterexample :
    (esQuery plainSearchParams).must = none ∧
    esQueryMustClaimed plainSearchParams = some [ContentClause.termExtension "plain"] ∧
    (esQuery plainSearchParams).must ≠ esQueryMustClaimed plainSearchParams := by
  decide

/-- C3 (amended): when a recognized transcript extension is requested the
compiled query carries the nested contents must clause requiring that
extension (and the content languages when present) and the content payload
fields are not excluded; otherwise no contents must clause is attached at all
(the default `"plain"` requirement is built but unused) and the raw content
payload fields are excluded from the returned document. -/
theorem C3_content_clause (p : SearchParams) :
    (∀ ext, p.content_extension = some ext → ext ∈ recognizedExtensions →
      (esQuery p).must = some (nestedContentsMust p.content_languages p.content_extension) ∧
      ContentClause.termExtension ext ∈
        nestedContentsMust p.content_languages p.content_extension ∧
      (∀ langs, p.content_languages = some langs →
        ContentClause.termsLanguage langs ∈
          nestedContentsMust p.content_languages p.content_extension) ∧
      (esQuery p).sourceExcludes = none) ∧
    (getContent p.content_extension = false →
      (esQuery p).must = none ∧
      (esQuery p).sourceExcludes = some contentPayloadExcludes) := by
  constructor
  · intro ext hext hrec
    have hgc : getContent p.content_extension = true := by
      simp [getContent, hext, hrec]
    refine ⟨?_, ?_, ?_, ?_⟩
    · simp [esQuery, hgc]
    · simp [nestedContentsMust, hext, hrec]
    · intro langs hl
      simp [nestedContentsMust, hl]
    · simp [esQuery, hgc]
  · intro hgc
    exact ⟨by simp [esQuery, hgc], by simp [esQuery, hgc]⟩

/-- A search request for webvtt transcripts in English, the C3 witness input. -/
def webvttParams : SearchParams :=
  { text := "learning", types := none, licenses := none, languages := none
    content_languages := some ["en"], content_extension := some "webvtt"
    provider_ids := none, wikipedia := false, wikipedia_limit := none
    sort_by := none, limit := none, page := none }

/-- Witness for C3 at the concrete requests `webvttParams` and
`plainSearchParams`. -/
theorem C3_content_clause_witness :
    ((esQuery webvttParams).must =
      some (nestedContentsMust webvttParams.content_languages webvttParams.content_extension) ∧
     ContentClause.termExtension "webvtt" ∈
       nestedContentsMust webvttParams.content_languages webvttParams.content_extension ∧
     ContentClause.termsLanguage ["en"] ∈
       nestedContentsMust webvttParams.content_languages webvttParams.content_extension ∧
     (esQuery webvttParams).sourceExcludes = none) ∧
    ((esQuery plainSearchParams).must = none ∧
     (esQuery plainSearchParams).sourceExcludes = some contentPayloadExcludes) := by
  have h1 := (C3_content_clause webvttParams).1 "webvtt" rfl (by decide)
  have h2 := (C3_content_clause plainSearchParams).2 (by decide)
  exact ⟨⟨h1.1, h1.2.1, h1.2.2.1 ["en"] rfl, h1.2.2.2⟩, h2⟩

/-- C5: the license sentinel.  When the license set contains `"cc"` the
compiled filters carry an exists filter on `license.url`; no compiled license
short-name terms filter ever carries `"cc"` (in the sentinel case no such
terms filter is produced at all); and a non-empty license set without the
sentinel is compiled to an exact-match terms filter on `license.short_name`
over that very set. -/
theorem C5_license_sentinel (types : Option String) (ls : List String)
    (provider_ids : Option (List Int)) (languages : Option (List String))
    (sort_by : Option String) (hne : ls ≠ []) :
    ("cc" ∈ ls →
      FilterClause.existsField "license.url" ∈
        filters types (some ls) provider_ids languages sort_by) ∧
    (∀ s, FilterClause.termsLicenseShortName s ∈
        filters types (some ls) provider_ids languages sort_by → "cc" ∉ s) ∧
    ("cc" ∉ ls →
      FilterClause.termsLicenseShortName ls ∈
        filters types (some ls) provider_ids languages sort_by) := by
  refine ⟨?_, ?_, ?_⟩
  · intro hcc
    simp [filters, List.mem_append, mem_optList, mem_iteList, hne, hcc]
  · intro s hs
    simp [filters, List.mem_append, mem_optList, mem_iteList] at hs
    rcases hs with ⟨⟨_, hnc⟩, rfl⟩
    exact hnc
  · intro hcc
    simp [filters, List.mem_append, mem_optList, mem_iteList, hne, hcc]

/-- Witness for C5 at the concrete license sets `["cc"]` and `["by-sa"]`. -/
theorem C5_license_sentinel_witness :
    FilterClause.existsField "license.url" ∈ filters none (some ["cc"]) none none none ∧
    ("cc" ∉ (["by-sa"] : List String) →
      FilterClause.termsLicenseShortName ["by-sa"] ∈ filters none (some ["by-sa"]) none none none) :=
  ⟨(C5_license_sentinel none ["cc"] none none none (by decide)).1 (by decide),
   (C5_license_sentinel none ["by-sa"] none none none (by decide)).2.2⟩

/-- C9: the result formatter's conditional fields.  With wikipedia inclusion
requested, an absent, zero or negative `wikipedia_limit` yields the full
concept list and a positive one yields its first `wikipedia_limit` entries;
with content payload fetched, `contents` holds exactly the entries whose
extension equals the requested content extension, while `content_ids` lists
all of the record's content ids regardless of that filter. -/
theorem C9_formatter_fields (hit : Hit) (cs : List Content) (wl : Option Int)
    (ext : Option String) (hcs : hit.source.contents = some cs) :
    (materialFormat hit true wl true ext).map (fun r => r.content_ids) =
      Except.ok (cs.map (fun c => c.content_id)) ∧
    (materialFormat hit true wl true ext).map (fun r => r.contents) =
      Except.ok (some (cs.filter (fun c => ext = some c.extension))) ∧
    (wl = none →
      (materialFormat hit true wl true ext).map (fun r => r.wikipedia) =
        Except.ok (some hit.source.wikipedia)) ∧
    (∀ l : Int, wl = some l → l ≤ 0 →
      (materialFormat hit true wl true ext).map (fun r => r.wikipedia) =
        Except.ok (some hit.source.wikipedia)) ∧
    (∀ l : Int, wl = some l → 0 < l →
      (materialFormat hit true wl true ext).map (fun r => r.wikipedia) =
        Except.ok (some (hit.source.wikipedia.take l.toNat))) := by
  refine ⟨?_, ?_, ?_, ?_, ?_⟩
  · simp [materialFormat, hcs, Except.map]
  · simp [materialFormat, hcs, Except.map]
  · rintro rfl
    simp [materialFormat, hcs, Except.map, wikipediaField]
  · rintro l rfl hl
    have h0 : ¬ (0 : Int) < l := not_lt.2 hl
    simp [materialFormat, hcs, Except.map, wikipediaField, h0]
  · rintro l rfl hl
    simp [materialFormat, hcs, Except.map, wikipediaField, hl]

/-- A fully populated sample hit used as witness input. -/
def sampleContents : List Content :=
  [{ content_id := 1, extension := "plain" },
   { content_id := 2, extension := "webvtt" },
   { content_id := 3, extension := "dfxp" }]

def sampleWiki : List Wiki :=
  [{ sec_name := "Machine learning" }, { sec_name := "Statistics" },
   { sec_name := "Computer science" }]

def sampleSource : HitSource :=
  { material_id := 7, title := "Lecture", description := "A lecture"
    creation_date := "2020-01-01", retrieved_date := "2020-02-01"
    mtype := "video", mimetype := "video/mp4"
    material_url := "http://host/v.mp4", website_url := "http://host/v"
    language := "en"
    license := { short_name := "by", typed_name := some ["by"],
                 disclaimer := DEFAULT_DISCLAIMER,
                 url := some "https://creativecommons.org/licenses/by/4.0/" }
    contents := some sampleContents
    provider_id := 3, provider_name := "Edu", provider_url := "edu.org"
    wikipedia := sampleWiki }

def sampleHit : Hit := { score := 12, source := sampleSource }

/-- A hit without a `contents` array, used as witness input for C10. -/
def bareHit : Hit :=
  { score := 5, source := { sampleSource with contents := none } }

/-- Witness for C9 at a concrete hit, `wikipedia_limit = 2` and the requested
extension `webvtt`. -/
theorem C9_formatter_fields_witness :
    (materialFormat sampleHit true (some 2) true (some "webvtt")).map (fun r => r.content_ids) =
      Except.ok (sampleContents.map (fun c => c.content_id)) ∧
    (materialFormat sampleHit true (some 2) true (some "webvtt")).map (fun r => r.contents) =
      Except.ok (some (sampleContents.filter (fun c => (some "webvtt" : Option String) = some c.extension))) ∧
    (materialFormat sampleHit true (some 2) true (some "webvtt")).map (fun r => r.wikipedia) =
      Except.ok (some (sampleHit.source.wikipedia.take (2 : Int).toNat)) := by
  have h := C9_formatter_fields sampleHit sampleContents (some 2) (some "webvtt") rfl
  exact ⟨h.1, h.2.1, h.2.2.2.2 2 rfl (by decide)⟩

/-- C10: the formatter guards the missing `contents` array only for
`content_ids`; when content payload was fetched it calls `filter` on the
array unguarded, so a hit without a `contents` field throws, and the
formatter is total exactly under the precondition that the array is present
whenever content payload was fetched. -/
theorem C10_formatter_totality (hit : Hit) (w : Bool) (wl : Option Int)
    (ext : Option String) :
    (hit.source.contents = none →
      materialFormat hit w wl true ext = Except.error () ∧
      (materialFormat hit w wl false ext).map (fun r => r.content_ids) = Except.ok []) ∧
    (∀ cs, hit.source.contents = some cs → ∀ gc : Bool,
      ∃ r, materialFormat hit w wl gc ext = Except.ok r) := by
  constructor
  · intro h
    exact ⟨by simp [materialFormat, h], by simp [materialFormat, h, Except.map]⟩
  · intro cs h gc
    rcases hm : materialFormat hit w wl gc ext with e | r
    · exfalso
      unfold materialFormat at hm
      rw [if_neg (by simp [h])] at hm
      exact Except.noConfusion hm
    · exact ⟨r, rfl⟩

/-- Witness for C10 at a hit without contents and at the populated sample hit. -/
theorem C10_formatter_totality_witness :
    (materialFormat bareHit true none true (some "plain") = Except.error () ∧
      (materialFormat bareHit true none false (some "plain")).map (fun r => r.content_ids) =
        Except.ok []) ∧
    ∃ r, materialFormat sampleHit true none true (some "plain") = Except.ok r :=
  ⟨(C10_formatter_totality bareHit true none (some "plain")).1 rfl,
   (C10_formatter_totality sampleHit true none (some "plain")).2 sampleContents rfl true⟩

/-! ### Lemmas about the license matcher -/

theorem takeWhile_run (run tail : List Char)
    (hall : ∀ c ∈ run, isWordOrHyphen c = true) :
    (run ++ '/' :: tail).takeWhile isWordOrHyphen = run := by
  induction run with
  | nil =>
    simp [List.takeWhile_cons, show isWordOrHyphen '/' = false from by decide]
  | cons c cs ih =>
    have hc : isWordOrHyphen c = true := hall c (by simp)
    simp only [List.cons_append, List.takeWhile_cons, hc, if_true]
    rw [ih (fun d hd => hall d (by simp [hd]))]

theorem drop_run (run tail : List Char) :
    (run ++ '/' :: tail).drop run.length = '/' :: tail :=
  List.drop_left run ('/' :: tail)

theorem matchLicenseAt_segment (x : Char) (run tail : List Char)
    (hx : x = 's' ∨ x = 'c') (hne : run ≠ [])
    (hall : ∀ c ∈ run, isWordOrHyphen c = true) :
    matchLicenseAt (licenseSegment x run tail) = some run := by
  simp only [licenseSegment, matchLicenseAt]
  rw [takeWhile_run run tail hall, drop_run run tail]
  rw [if_pos ⟨hx, hne, rfl⟩]

theorem matchLicenseAt_sound (cs run : List Char)
    (h : matchLicenseAt cs = some run) :
    ∃ x tail, cs = licenseSegment x run tail ∧ (x = 's' ∨ x = 'c') ∧
      run ≠ [] ∧ ∀ c ∈ run, isWordOrHyphen c = true := by
  unfold matchLicenseAt at h
  split at h
  · rename_i x rest
    split_ifs at h with hc
    obtain ⟨hx, hne, htake⟩ := hc
    have hrun : rest.takeWhile isWordOrHyphen = run := by injection h
    rw [hrun] at hne htake
    have hsplit : run ++ rest.dropWhile isWordOrHyphen = rest := by
      rw [← hrun]
      exact List.takeWhile_append_dropWhile isWordOrHyphen rest
    have hdrop : rest.drop run.length = rest.dropWhile isWordOrHyphen := by
      conv_lhs => rw [← hsplit]
      exact List.drop_left run (rest.dropWhile isWordOrHyphen)
    rw [hdrop] at htake
    match hdw : rest.dropWhile isWordOrHyphen with
    | [] =>
      rw [hdw] at htake
      simp at htake
    | d :: ds =>
      rw [hdw] at htake
      have hd : d = '/' := by simpa using htake
      have hmem : ∀ c ∈ run, isWordOrHyphen c = true := by
        intro c hcm
        rw [← hrun] at hcm
        exact List.mem_takeWhile_imp hcm
      refine ⟨x, ds, ?_, hx, hne, hmem⟩
      rw [hdw, hd] at hsplit
      unfold licenseSegment
      rw [hsplit]
  · simp at h

theorem scanLicense_sound (cs : List Char) (run : List Char)
    (h : scanLicense cs = some run) :
    ∃ pre x tail, cs = pre ++ licenseSegment x run tail ∧ (x = 's' ∨ x = 'c') ∧
      run ≠ [] ∧ ∀ c ∈ run, isWordOrHyphen c = true := by
  induction cs with
  | nil => simp [scanLicense] at h
  | cons c rest ih =>
    rw [scanLicense] at h
    cases hm : matchLicenseAt (c :: rest) with
    | some r =>
      rw [hm] at h
      obtain rfl : r = run := by injection h
      obtain ⟨x, tail, hcs, hx, hne, hall⟩ := matchLicenseAt_sound _ _ hm
      exact ⟨[], x, tail, by simpa using hcs, hx, hne, hall⟩
    | none =>
      rw [hm] at h
      obtain ⟨pre, x, tail, hcs, hx, hne, hall⟩ := ih h
      exact ⟨c :: pre, x, tail, by rw [hcs]; rfl, hx, hne, hall⟩

theorem scanLicense_segment (pre : List Char) (x : Char) (run tail : List Char)
    (hx : x = 's' ∨ x = 'c') (hne : run ≠ [])
    (hall : ∀ c ∈ run, isWordOrHyphen c = true) :
    (scanLicense (pre ++ licenseSegment x run tail)).isSome = true := by
  induction pre with
  | nil =>
    have hm := matchLicenseAt_segment x run tail hx hne hall
    unfold licenseSegment at hm ⊢
    rw [List.nil_append]
    simp only [scanLicense]
    rw [hm]
    rfl
  | cons c pre ih =>
    rw [List.cons_append]
    simp only [scanLicense]
    cases hm : matchLicenseAt (c :: (pre ++ licenseSegment x run tail)) with
    | some r => rfl
    | none => exact ih

/-- C6: the license normalizer.  A successful extraction yields a license
whose short name is the captured code between `/licen[sc]es/` (either
spelling) and the next `/`, whose typed name is that code split on `-`, and
which carries the fixed default-responsibility disclaimer; any URL containing
such a path segment makes extraction succeed; an absent URL yields the fixed
no-license disclaimer as short name with the typed name unset; and a present
URL on which extraction fails makes normalization raise rather than recover. -/
theorem C6_license_normalizer (u : String) (code : String) :
    (extractShortName u = some code →
      normalizeLicense (some u) =
        Except.ok { short_name := code, typed_name := some (typedNameOf code),
                    disclaimer := DEFAULT_DISCLAIMER, url := some u } ∧
      ∃ pre x tail, u.data = pre ++ licenseSegment x code.data tail ∧
        (x = 's' ∨ x = 'c') ∧ code.data ≠ [] ∧
        ∀ c ∈ code.data, isWordOrHyphen c = true) ∧
    (∀ pre x run tail, (x = 's' ∨ x = 'c') → run ≠ [] →
      (∀ c ∈ run, isWordOrHyphen c = true) →
      extractShortName (String.mk (pre ++ licenseSegment x run tail)) ≠ none) ∧
    (normalizeLicense none =
      Except.ok { short_name := NO_LICENSE_DISCLAIMER, typed_name := none,
                  disclaimer := DEFAULT_DISCLAIMER, url := none }) ∧
    (u ≠ "" → extractShortName u = none →
      normalizeLicense (some u) = Except.error ()) := by
  refine ⟨?_, ?_, rfl, ?_⟩
  · intro h
    have hu : u ≠ "" := by
      rintro rfl
      rw [(show extractShortName "" = none by decide)] at h
      cases h
    constructor
    · simp only [normalizeLicense]
      rw [if_neg hu, h]
    · obtain ⟨run, hrun, hmk⟩ : ∃ run, scanLicense u.data = some run ∧ String.mk run = code := by
        unfold extractShortName at h
        cases hs : scanLicense u.data with
        | none => rw [hs] at h; simp at h
        | some r => rw [hs] at h; exact ⟨r, rfl, by injection h⟩
      obtain ⟨pre, x, tail, hcs, hx, hne, hall⟩ := scanLicense_sound _ _ hrun
      subst hmk
      exact ⟨pre, x, tail, hcs, hx, hne, hall⟩
  · intro pre x run tail hx hne hall h
    have hs := scanLicense_segment pre x run tail hx hne hall
    unfold extractShortName at h
    rw [Option.map_eq_none'] at h
    have h' : scanLicense (pre ++ licenseSegment x run tail) = none := h
    rw [h'] at hs
    cases hs
  · intro hu h
    simp only [normalizeLicense]
    rw [if_neg hu, h]

/-- Witness for C6 at the spec's concrete Creative Commons URL and at a URL
without a license path segment. -/
theorem C6_license_normalizer_witness :
    normalizeLicense (some "https://creativecommons.org/licenses/by-nc-sa/4.0/") =
      Except.ok { short_name := "by-nc-sa", typed_name := some ["by", "nc", "sa"],
                  disclaimer := DEFAULT_DISCLAIMER,
                  url := some "https://creativecommons.org/licenses/by-nc-sa/4.0/" } ∧
    normalizeLicense (some "https://example.org/terms") = Except.error () := by
  constructor
  · have h :=
      ((C6_license_normalizer "https://creativecommons.org/licenses/by-nc-sa/4.0/" "by-nc-sa").1
        (by decide)).1
    rw [h]
    rw [(show typedNameOf "by-nc-sa" = ["by", "nc", "sa"] by decide)]
  · exact (C6_license_normalizer "https://example.org/terms" "").2.2.2 (by decide) (by decide)

/-! ### Lemmas about the concept extractor's frequency fold -/

def keysOf (l : List (String × Nat)) : List String := l.map Prod.fst

theorem keysOf_nil : keysOf [] = [] := rfl

theorem keysOf_cons (k : String) (v : Nat) (rest : List (String × Nat)) :
    keysOf ((k, v) :: rest) = k :: keysOf rest := rfl

theorem keysOf_append (a b : List (String × Nat)) :
    keysOf (a ++ b) = keysOf a ++ keysOf b := by
  simp [keysOf]

theorem bumpCount_notMem (acc : List (String × Nat)) (n : String)
    (hmem : n ∉ keysOf acc) :
    bumpCount acc n = acc ++ [(n, 1)] := by
  induction acc with
  | nil => rfl
  | cons kv rest ih =>
    obtain ⟨k, v⟩ := kv
    rw [keysOf_cons] at hmem
    have hk : ¬ k = n := fun h => hmem (by simp [h])
    simp only [bumpCount, if_neg hk, List.cons_append]
    rw [ih (fun h => hmem (List.mem_cons_of_mem k h))]

theorem bumpCount_mem (acc : List (String × Nat)) (n : String)
    (hmem : n ∈ keysOf acc) (hnd : (keysOf acc).Nodup) :
    bumpCount acc n =
      acc.map (fun kv => (kv.1, kv.2 + if kv.1 = n then 1 else 0)) := by
  induction acc with
  | nil => simp [keysOf] at hmem
  | cons kv rest ih =>
    obtain ⟨k, v⟩ := kv
    rw [keysOf_cons] at hmem hnd
    by_cases hk : k = n
    · subst hk
      have hnk : k ∉ keysOf rest := (List.nodup_cons.mp hnd).1
      have hrest : rest.map (fun kv => (kv.1, kv.2 + if kv.1 = k then 1 else 0)) = rest := by
        conv_rhs => rw [← List.map_id rest]
        apply List.map_congr_left
        intro kv hkv
        have hne : ¬ kv.1 = k := fun he => hnk (he ▸ List.mem_map_of_mem Prod.fst hkv)
        simp [hne]
      simp [bumpCount, hrest]
    · have hmem' : n ∈ keysOf rest := by
        rcases List.mem_cons.mp hmem with h | h
        · exact absurd h.symm hk
        · exact h
      simp only [bumpCount, if_neg hk, List.map_cons, if_neg hk]
      rw [ih hmem' (List.nodup_cons.mp hnd).2]
      simp

theorem keysOf_bumpCount (acc : List (String × Nat)) (n : String) :
    keysOf (bumpCount acc n) =
      if n ∈ keysOf acc then keysOf acc else keysOf acc ++ [n] := by
  induction acc with
  | nil => simp [bumpCount, keysOf]
  | cons kv rest ih =>
    obtain ⟨k, v⟩ := kv
    by_cases hk : k = n
    · subst hk
      simp [bumpCount, keysOf_cons]
    · simp only [bumpCount, if_neg hk, keysOf_cons, ih]
      by_cases hm : n ∈ keysOf rest
      · rw [if_pos hm, if_pos (List.mem_cons_of_mem k hm)]
      · rw [if_neg hm,
          if_neg (fun h => by rcases List.mem_cons.mp h with h' | h' <;> [exact hk h'.symm; exact hm h']),
          List.cons_append]

theorem nodup_keysOf_bumpCount (acc : List (String × Nat)) (n : String)
    (hnd : (keysOf acc).Nodup) : (keysOf (bumpCount acc n)).Nodup := by
  rw [keysOf_bumpCount]
  split_ifs with hm
  · exact hnd
  · rw [List.nodup_append]
    exact ⟨hnd, List.nodup_singleton n, by simpa using hm⟩

theorem mem_firstSeenFrom_not_seen (l : List String) :
    ∀ seen m, m ∈ firstSeenFrom seen l → m ∉ seen := by
  induction l with
  | nil =>
    intro seen m h
    simp [firstSeenFrom] at h
  | cons n rest ih =>
    intro seen m h
    simp only [firstSeenFrom] at h
    split_ifs at h with hn
    · exact ih seen m h
    · rcases List.mem_cons.mp h with rfl | h'
      · exact hn
      · exact fun hm => ih (n :: seen) m h' (List.mem_cons_of_mem n hm)

theorem firstSeenFrom_congr (l : List String) :
    ∀ s₁ s₂, (∀ x, x ∈ s₁ ↔ x ∈ s₂) →
      firstSeenFrom s₁ l = firstSeenFrom s₂ l := by
  induction l with
  | nil => intro _ _ _; rfl
  | cons n rest ih =>
    intro s₁ s₂ hiff
    simp only [firstSeenFrom]
    by_cases hn : n ∈ s₁
    · rw [if_pos hn, if_pos ((hiff n).mp hn)]
      exact ih s₁ s₂ hiff
    · rw [if_neg hn, if_neg (fun h => hn ((hiff n).mpr h))]
      rw [ih (n :: s₁) (n :: s₂) (fun x => by simp [hiff x])]

theorem foldl_bumpCount_eq (names : List String) :
    ∀ acc : List (String × Nat), (keysOf acc).Nodup →
      names.foldl bumpCount acc =
        acc.map (fun kv => (kv.1, kv.2 + names.count kv.1)) ++
        (firstSeenFrom (keysOf acc) names).map (fun m => (m, names.count m)) := by
  induction names with
  | nil =>
    intro acc _
    simp [firstSeenFrom]
  | cons n rest ih =>
    intro acc hnd
    rw [List.foldl_cons, ih (bumpCount acc n) (nodup_keysOf_bumpCount acc n hnd)]
    by_cases hm : n ∈ keysOf acc
    · rw [keysOf_bumpCount, if_pos hm, bumpCount_mem acc n hm hnd, List.map_map]
      simp only [firstSeenFrom, if_pos hm]
      congr 1
      · apply List.map_congr_left
        intro kv _
        by_cases hkv : kv.1 = n
        · simp [hkv, List.count_cons, Prod.ext_iff]
          omega
        · simp [hkv, List.count_cons, Prod.ext_iff]
      · apply List.map_congr_left
        intro m hmem
        have hns : m ∉ keysOf acc := mem_firstSeenFrom_not_seen rest (keysOf acc) m hmem
        have hne : ¬ (m = n) := fun he => hns (he ▸ hm)
        simp [List.count_cons, hne]
    · rw [keysOf_bumpCount, if_neg hm, bumpCount_notMem acc n hm]
      simp only [List.map_append, List.map_cons, List.map_nil, firstSeenFrom, if_neg hm]
      rw [firstSeenFrom_congr rest (keysOf acc ++ [n]) (n :: keysOf acc) (fun x => by simp [or_comm])]
      rw [List.append_assoc]
      congr 1
      · apply List.map_congr_left
        intro kv hkv
        have hne : ¬ (kv.1 = n) := fun he => hm (he ▸ List.mem_map_of_mem Prod.fst hkv)
        simp [List.count_cons, hne]
      · rw [List.singleton_append]
        congr 1
        · simp [List.count_cons, Prod.ext_iff]
          omega
        · apply List.map_congr_left
          intro m hmem
          have hns : m ∉ n :: keysOf acc :=
            mem_firstSeenFrom_not_seen rest (n :: keysOf acc) m hmem
          have hne : ¬ (m = n) := fun he => hns (he ▸ List.mem_cons_self n (keysOf acc))
          simp [List.count_cons, hne]

theorem conceptCounts_eq (names : List String) :
    conceptCounts names =
      (firstSeenFrom [] names).map (fun m => (m, names.count m)) := by
  have h := foldl_bumpCount_eq names [] (by simp [keysOf])
  simpa [conceptCounts, keysOf] using h

/-- A reference document contributing 21 distinct concept names inside its
top 30 (a appears 3 times, b twice, c1 … c19 once each). -/
def cexDoc : List String :=
  ["a", "a", "a", "b", "b",
   "c1", "c2", "c3", "c4", "c5", "c6", "c7", "c8", "c9", "c10",
   "c11", "c12", "c13", "c14", "c15", "c16", "c17", "c18", "c19"]

/-- C1 (counterexample): the claim says that after dropping the 2
highest-frequency entries at most the next 20 are kept, but the code keeps
`slice(startSlice, 20)` — the survivors of the first 20 positions, at most 18
after the drop.  On a document with 21 distinct concepts the code returns 18
entries where the claim predicts 19. -/
theorem C1_concept_counterexample :
    wikiConcepts [cexDoc] ≠ conceptExtractorClaimed [cexDoc] ∧
    (wikiConcepts [cexDoc]).length = 18 ∧
    (conceptExtractorClaimed [cexDoc]).length = 19 := by
  decide

/-- C1 (amended): the extractor takes the top 30 concept names per reference
document, concatenates them, computes the occurrence frequency per distinct
name (first-seen order), sorts descending by frequency with a stable sort,
and — whenever at least 3 distinct names exist — drops the 2 highest-frequency
entries and keeps at most the next 18 (the survivors of the first 20 positions
of the sorted list); with fewer than 3 distinct names it keeps at most the
first 20. -/
theorem C1_concept_extractor (docs : List (List String)) :
    wikiConcepts docs = conceptExtractorAmended docs := by
  simp only [wikiConcepts, conceptExtractorAmended]
  rw [conceptCounts_eq]
  generalize (firstSeenFrom [] ((docs.map (fun d => d.take 30)).flatten)).map
    (fun m => (m, ((docs.map (fun d => d.take 30)).flatten).count m)) = entries
  by_cases hlen : 2 < entries.length
  · rw [if_pos hlen, if_pos (by omega)]
    unfold jsSlice
    rw [List.drop_take]
  · rw [if_neg hlen, if_neg (by omega)]
    unfold jsSlice
    simp

end SearchAPI
